import Mathlib

/-!
Verification of the P12 certificate tool core (src/App.tsx).

The component state is three React state cells — `certificates`,
`selectedFile`, `isProcessing` — plus the wall clock read through
Date.now().  The three handlers `handleFileUpload`, `simulateUnrevoke`
and `handleDownload` are modelled as pure functions on that state;
toast notifications are returned as values.  File names are lists of
characters and file contents are lists of bytes; a browser File is a
name plus its bytes.  DOM-only effects (the anchor element, the object
URL create/revoke pair and resetting the file input's value) have no
observable state in the model and are omitted.
-/

/-- The status field of CertificateInfo (src/App.tsx line 17). -/
inductive CertStatus
  | revoked
  | active
  | processing
deriving DecidableEq, Repr

/-- The type field of CertificateInfo (src/App.tsx line 21). -/
inductive CertType
  | development
  | distribution
deriving DecidableEq, Repr

/-- A browser File: a name and opaque binary content (its bytes). -/
structure JsFile where
  name : List Char
  bytes : List Nat
deriving DecidableEq, Repr

/-- A toast notification as fired through useToast: title, description and
whether the destructive variant was used (src/App.tsx lines 36-45). -/
structure Toast where
  title : String
  description : String
  destructive : Bool
deriving DecidableEq, Repr

/-- The literal suffix checked by handleFileUpload (src/App.tsx line 34). -/
def p12Suffix : List Char := ".p12".data

/-- The fixed bundle identifier placeholder (src/App.tsx line 82). -/
def bundleIdStr : String := "com.example.app"

/-- Fuel-driven core of the decimal rendering: structural in the fuel so
that the kernel can evaluate it.  With fuel at least n the fuel never
runs out, since n / 10 shrinks strictly below any positive n. -/
def toDecAux : Nat → Nat → List Char
  | 0, n => [Nat.digitChar n]
  | fuel + 1, n =>
    if n < 10 then [Nat.digitChar n]
    else toDecAux fuel (n / 10) ++ [Nat.digitChar (n % 10)]

/-- Decimal rendering of a natural number, as the template literal in
`cert_${Date.now()}` renders the timestamp (src/App.tsx line 77). -/
def toDec (n : Nat) : List Char := toDecAux n n

/-- The characters before the timestamp in a record identifier. -/
def certIdHead : List Char := "cert_".data

/-- The record identifier built at completion time t (src/App.tsx line 77). -/
def mkId (t : Nat) : String := (certIdHead ++ toDec t).asString

/-- One millisecond per JS time unit: a day in milliseconds. -/
def msPerDay : Nat := 24 * 60 * 60 * 1000

/-- Delay of one pipeline stage in milliseconds (src/App.tsx line 71). -/
def stageDelayMs : Nat := 1000

/-- Number of pipeline stages (src/App.tsx lines 62-68). -/
def stageCount : Nat := 5

/-- JS String.prototype.replace with a string pattern and an empty
replacement: removes the first occurrence of pat and keeps everything
else; a list with no occurrence is returned unchanged.  This is the
semantics of `name.replace('.p12', '')` (src/App.tsx line 78). -/
def removeFirst (pat : List Char) : List Char → List Char
  | [] => []
  | c :: rest =>
    if pat.isPrefixOf (c :: rest) then (c :: rest).drop pat.length
    else c :: removeFirst pat rest

/-- One produced certificate record (src/App.tsx lines 14-23).  The
issue and expiry dates are kept as millisecond timestamps; the source
formats them with toLocaleDateString, which is presentation only. -/
structure CertificateInfo where
  id : String
  name : List Char
  status : CertStatus
  issueDate : Nat
  expiryDate : Nat
  bundleId : String
  type : CertType
  file : Option JsFile
deriving DecidableEq, Repr

/-- The component state: the three useState cells (src/App.tsx lines
26-28) together with the current wall-clock time in milliseconds. -/
structure AppState where
  certificates : List CertificateInfo
  selectedFile : Option JsFile
  isProcessing : Bool
  now : Nat
deriving DecidableEq, Repr

/-- The toast fired when a non-p12 (or absent) file is chosen
(src/App.tsx lines 41-45). -/
def invalidFormatToast : Toast :=
  { title := "Invalid file format"
    description := "Please upload a .p12 certificate file"
    destructive := true }

/-- The accepting toast of handleFileUpload (src/App.tsx lines 36-39). -/
def uploadOkToast (f : JsFile) : Toast :=
  { title := "Certificate uploaded"
    description := f.name.asString ++ " ready for processing"
    destructive := false }

/-- Whether handleFileUpload takes its accepting branch: the event
carries a file whose name ends with the literal `.p12`
(src/App.tsx line 34).  List.isSuffixOf is the case-sensitive suffix
test, exactly as JS String.prototype.endsWith. -/
def uploadAccepts (ev : Option JsFile) : Bool :=
  match ev with
  | some f => p12Suffix.isSuffixOf f.name
  | none => false

/-- handleFileUpload (src/App.tsx lines 32-47).  The argument is
`event.target.files?.[0]`: none when the selection is empty.  Returns
the next state and the single toast that is fired. -/
def handleFileUpload (ev : Option JsFile) (s : AppState) : AppState × Toast :=
  match ev with
  | some f =>
    if p12Suffix.isSuffixOf f.name then
      ({ s with selectedFile := some f }, uploadOkToast f)
    else (s, invalidFormatToast)
  | none => (s, invalidFormatToast)

/-- The toast fired when simulateUnrevoke is called with no selected
file (src/App.tsx lines 51-55). -/
def missingFileToast : Toast :=
  { title := "Missing file"
    description := "Please upload a certificate file."
    destructive := true }

/-- The success toast of simulateUnrevoke (src/App.tsx lines 89-92). -/
def unrevokeOkToast : Toast :=
  { title := "Success!"
    description := "Certificate has been successfully unrevoked"
    destructive := false }

/-- The record built at completion time t from the selected file f
(src/App.tsx lines 76-85); rand models `Math.random() > 0.5`. -/
def mkCert (t : Nat) (rand : Bool) (f : JsFile) : CertificateInfo :=
  { id := mkId t
    name := removeFirst p12Suffix f.name
    status := CertStatus.active
    issueDate := t - 30 * msPerDay
    expiryDate := t + 365 * msPerDay
    bundleId := bundleIdStr
    type := if rand then CertType.development else CertType.distribution
    file := some f }

/-- simulateUnrevoke (src/App.tsx lines 49-98).  With no selected file
it fires the missing-file toast and changes nothing.  Otherwise the five
awaited 1000 ms timeouts advance the clock, the new record (stamped with
the advanced clock) is prepended, the selected file is cleared — and
isProcessing, set to true on entry, is never reset: the source contains
no setIsProcessing(false), so the model leaves it true. -/
def simulateUnrevoke (rand : Bool) (s : AppState) : AppState × Toast :=
  match s.selectedFile with
  | none => (s, missingFileToast)
  | some f =>
    let t := s.now + stageCount * stageDelayMs
    ({ certificates := mkCert t rand f :: s.certificates
       selectedFile := none
       isProcessing := true
       now := t },
     unrevokeOkToast)

/-- The toast fired when download is attempted without a file handle
(src/App.tsx lines 102-106). -/
def downloadFailedToast : Toast :=
  { title := "Download failed"
    description := "Certificate file is missing or invalid."
    destructive := true }

/-- The name given to the saved file: the record name, with `.p12`
appended when it is not already the suffix (src/App.tsx line 112). -/
def exportName (name : List Char) : List Char :=
  if p12Suffix.isSuffixOf name then name else name ++ p12Suffix

/-- The synthesized file-save: the anchor's download name and the bytes
behind the object URL (src/App.tsx lines 109-114). -/
structure Artifact where
  fileName : List Char
  bytes : List Nat
deriving DecidableEq, Repr

/-- handleDownload (src/App.tsx lines 100-119).  In the model every
JsFile is a valid Blob, so only the absent-handle check can fail; on
success the artifact carries exactly the file's bytes.  Component state
is never touched. -/
def handleDownload (file : Option JsFile) (name : List Char) :
    Except Toast Artifact :=
  match file with
  | none => Except.error downloadFailedToast
  | some f => Except.ok { fileName := exportName name, bytes := f.bytes }

/-- The operations a user can drive the component through: choosing a
file (possibly an empty selection), clicking Unrevoke, clicking a
record's Download button, and time passing between interactions. -/
inductive Op
  | upload (ev : Option JsFile)
  | unrevoke (rand : Bool)
  | download (i : Nat)
  | tick (d : Nat)
deriving Repr

/-- The state transition of one operation.  Download renders an
artifact but never mutates component state. -/
def step (op : Op) (s : AppState) : AppState :=
  match op with
  | Op.upload ev => (handleFileUpload ev s).1
  | Op.unrevoke rand => (simulateUnrevoke rand s).1
  | Op.download _ => s
  | Op.tick d => { s with now := s.now + d }

/-- The freshly mounted component at wall-clock time t0: empty record
list, no selected file, not processing (src/App.tsx lines 26-28). -/
def initState (t0 : Nat) : AppState :=
  { certificates := [], selectedFile := none, isProcessing := false, now := t0 }

/-- Running a sequence of operations from a state. -/
def runOps (ops : List Op) (s : AppState) : AppState :=
  ops.foldl (fun s op => step op s) s

/-- A well-formed sample file used by concrete witnesses. -/
def demoFile : JsFile := { name := "cert1.p12".data, bytes := [3, 1, 4, 1, 5] }

/-- The fuel argument of toDecAux is irrelevant once it is at least n. -/
theorem toDecAux_congr :
    ∀ (fuel1 fuel2 n : Nat), n ≤ fuel1 → n ≤ fuel2 →
      toDecAux fuel1 n = toDecAux fuel2 n := by
  intro fuel1
  induction fuel1 with
  | zero =>
    intro fuel2 n h1 _
    interval_cases n
    cases fuel2 <;> simp [toDecAux]
  | succ f ih =>
    intro fuel2 n h1 h2
    cases fuel2 with
    | zero =>
      interval_cases n
      simp [toDecAux]
    | succ g =>
      by_cases hn : n < 10
      · simp [toDecAux, hn]
      · have hdiv : n / 10 < n := Nat.div_lt_self (by omega) (by omega)
        simp only [toDecAux, if_neg hn]
        rw [ih g (n / 10) (by omega) (by omega)]

/-- The recursion equation toDec satisfies. -/
theorem toDec_eq_ite (n : Nat) :
    toDec n = if n < 10 then [Nat.digitChar n]
      else toDec (n / 10) ++ [Nat.digitChar (n % 10)] := by
  cases n with
  | zero => simp [toDec, toDecAux]
  | succ k =>
    by_cases hn : k + 1 < 10
    · simp [toDec, toDecAux, hn]
    · have hdiv : (k + 1) / 10 < k + 1 := Nat.div_lt_self (by omega) (by omega)
      simp only [toDec, toDecAux, if_neg hn]
      rw [toDecAux_congr k ((k + 1) / 10) ((k + 1) / 10) (by omega) (by omega)]

/-- Nat.digitChar is injective below 10. -/
theorem digitChar_inj_lt :
    ∀ a < 10, ∀ b < 10, Nat.digitChar a = Nat.digitChar b → a = b := by decide

/-- A decimal rendering is never empty. -/
theorem toDec_ne_nil (n : Nat) : toDec n ≠ [] := by
  rw [toDec_eq_ite]
  by_cases hn : n < 10 <;> simp [hn]

/-- Distinct numbers have distinct decimal renderings. -/
theorem toDec_inj : ∀ m n : Nat, toDec m = toDec n → m = n := by
  intro m
  induction m using Nat.strong_induction_on with
  | _ m ih =>
    intro n h
    by_cases hm : m < 10 <;> by_cases hn : n < 10
    · rw [toDec_eq_ite m, toDec_eq_ite n, if_pos hm, if_pos hn] at h
      exact digitChar_inj_lt m hm n hn (List.cons_eq_cons.mp h).1
    · rw [toDec_eq_ite m, toDec_eq_ite n, if_pos hm, if_neg hn] at h
      have hlen := congrArg List.length h
      simp only [List.length_cons, List.length_append, List.length_nil] at hlen
      have : toDec (n / 10) = [] := List.length_eq_zero.mp (by omega)
      exact absurd this (toDec_ne_nil _)
    · rw [toDec_eq_ite m, toDec_eq_ite n, if_neg hm, if_pos hn] at h
      have hlen := congrArg List.length h
      simp only [List.length_cons, List.length_append, List.length_nil] at hlen
      have : toDec (m / 10) = [] := List.length_eq_zero.mp (by omega)
      exact absurd this (toDec_ne_nil _)
    · rw [toDec_eq_ite m, toDec_eq_ite n, if_neg hm, if_neg hn] at h
      obtain ⟨hquot, hrem⟩ := List.append_inj' h rfl
      have hdm : m / 10 < m := Nat.div_lt_self (by omega) (by omega)
      have h1 : m / 10 = n / 10 := ih (m / 10) hdm (n / 10) hquot
      have h2 : m % 10 = n % 10 :=
        digitChar_inj_lt (m % 10) (Nat.mod_lt _ (by omega)) (n % 10)
          (Nat.mod_lt _ (by omega)) (List.cons_eq_cons.mp hrem).1
      omega

/-- Distinct timestamps give distinct record identifiers. -/
theorem mkId_inj : ∀ a b : Nat, mkId a = mkId b → a = b := by
  intro a b h
  have hdata : certIdHead ++ toDec a = certIdHead ++ toDec b :=
    congrArg String.data h
  exact toDec_inj a b (List.append_cancel_left hdata)

example : uploadAccepts (some demoFile) = true := by decide

example :
    removeFirst p12Suffix "a.p12b.p12".data = "ab.p12".data := by decide

example :
    (runOps [Op.upload (some demoFile), Op.unrevoke true] (initState 0)).certificates
      = [mkCert 5000 true demoFile] := by decide

/-- A second sample file and derived state used by concrete witnesses. -/
def demoFile2 : JsFile := { name := "cert2.p12".data, bytes := [2, 7] }

/-- The stem of demoFile's name. -/
def demoStem : List Char := "cert1".data

/-- A state with demoFile selected, as after a successful upload. -/
def demoSelState : AppState :=
  { initState 0 with selectedFile := some demoFile }

/-- A file rejected by the intake check. -/
def badFile : JsFile := { name := "notes.txt".data, bytes := [] }

/-- When the pattern occurs nowhere strictly inside l ++ pat before the
final copy, removeFirst removes exactly that final copy. -/
theorem removeFirst_append_self (pat l : List Char) (hpat : pat ≠ [])
    (h : ∀ i, i < l.length → pat.isPrefixOf ((l ++ pat).drop i) = false) :
    removeFirst pat (l ++ pat) = l := by
  induction l with
  | nil =>
    cases pat with
    | nil => exact absurd rfl hpat
    | cons c cs =>
      have hself : (c :: cs).isPrefixOf (c :: cs) = true :=
        List.isPrefixOf_iff_prefix.mpr (List.prefix_refl _)
      simp only [List.nil_append, removeFirst, hself, if_true]
      exact List.drop_length _
  | cons c rest ih =>
    have h0 := h 0 (by simp)
    simp only [List.drop_zero, List.cons_append] at h0
    have hrest : ∀ i, i < rest.length →
        pat.isPrefixOf ((rest ++ pat).drop i) = false := by
      intro i hi
      have hstep := h (i + 1) (by simp only [List.length_cons]; omega)
      simpa [List.cons_append, List.drop_succ_cons] using hstep
    simp only [List.cons_append, removeFirst, List.append_eq]
    have hcond : ¬ (pat.isPrefixOf (c :: (rest ++ pat)) = true) := by
      rw [h0]
      exact Bool.false_ne_true
    rw [if_neg hcond, ih hrest]

/-- When the pattern occurs nowhere strictly inside l ++ pat before the
final copy, it is in particular not a suffix of l. -/
theorem not_suffixOf_of_no_inner (pat l : List Char) (hpat : pat ≠ [])
    (h : ∀ i, i < l.length → pat.isPrefixOf ((l ++ pat).drop i) = false) :
    pat.isSuffixOf l = false := by
  by_contra hc
  have ht : pat.isSuffixOf l = true := by
    cases hb : pat.isSuffixOf l with
    | false => exact absurd hb hc
    | true => rfl
  obtain ⟨u, hu⟩ := List.isSuffixOf_iff_suffix.mp ht
  have hplen : 0 < pat.length := List.length_pos.mpr hpat
  have hlt : u.length < l.length := by
    rw [← hu]
    simp only [List.length_append]
    omega
  have hfalse := h u.length hlt
  rw [← hu, List.append_assoc, List.drop_left] at hfalse
  have htrue : pat.isPrefixOf (pat ++ pat) = true :=
    List.isPrefixOf_iff_prefix.mpr (List.prefix_append _ _)
  simp [htrue] at hfalse

/-- Choosing a file never touches the record list. -/
theorem step_upload_certs (ev : Option JsFile) (s : AppState) :
    (step (Op.upload ev) s).certificates = s.certificates := by
  cases ev with
  | none => rfl
  | some f =>
    simp only [step, handleFileUpload]
    split <;> rfl

/-- Choosing a file never touches the clock. -/
theorem step_upload_now (ev : Option JsFile) (s : AppState) :
    (step (Op.upload ev) s).now = s.now := by
  cases ev with
  | none => rfl
  | some f =>
    simp only [step, handleFileUpload]
    split <;> rfl

/-- Every stored record retains a file handle. -/
def allHaveFile (s : AppState) : Prop :=
  ∀ r ∈ s.certificates, r.file.isSome = true

/-- One operation preserves allHaveFile: the only operation that adds a
record is a successful run, and it copies the selected file in. -/
theorem allHaveFile_step (op : Op) (s : AppState) (h : allHaveFile s) :
    allHaveFile (step op s) := by
  cases op with
  | upload ev =>
    intro r hr
    rw [step_upload_certs] at hr
    exact h r hr
  | unrevoke rand =>
    cases hsel : s.selectedFile with
    | none =>
      intro r hr
      simp only [step, simulateUnrevoke, hsel] at hr
      exact h r hr
    | some f =>
      intro r hr
      simp only [step, simulateUnrevoke, hsel, List.mem_cons] at hr
      rcases hr with rfl | hr
      · rfl
      · exact h r hr
  | download i => exact h
  | tick d => intro r hr; exact h r hr

/-- allHaveFile holds along any run. -/
theorem allHaveFile_runOps (ops : List Op) (s : AppState) (h : allHaveFile s) :
    allHaveFile (runOps ops s) := by
  induction ops generalizing s with
  | nil => exact h
  | cons op rest ih => exact ih _ (allHaveFile_step op s h)

/-- The stored identifiers are the identifiers of a strictly decreasing
list of timestamps, all bounded by the current clock. -/
def idsTimeStamped (s : AppState) : Prop :=
  ∃ ts : List Nat,
    s.certificates.map CertificateInfo.id = ts.map mkId
    ∧ ts.Pairwise (fun a b => b < a)
    ∧ ∀ t ∈ ts, t ≤ s.now

/-- One operation preserves idsTimeStamped: a successful run stamps the
new record with a clock value strictly above every earlier stamp. -/
theorem idsTimeStamped_step (op : Op) (s : AppState) (h : idsTimeStamped s) :
    idsTimeStamped (step op s) := by
  obtain ⟨ts, hmap, hpw, hle⟩ := h
  cases op with
  | upload ev =>
    refine ⟨ts, ?_, hpw, ?_⟩
    · rw [step_upload_certs]; exact hmap
    · rw [step_upload_now]; exact hle
  | unrevoke rand =>
    cases hsel : s.selectedFile with
    | none =>
      have hstep : step (Op.unrevoke rand) s = s := by
        simp [step, simulateUnrevoke, hsel]
      rw [hstep]
      exact ⟨ts, hmap, hpw, hle⟩
    | some f =>
      have hdur : stageCount * stageDelayMs = 5000 := rfl
      have hstep : step (Op.unrevoke rand) s =
          { certificates := mkCert (s.now + stageCount * stageDelayMs) rand f
              :: s.certificates
            selectedFile := none
            isProcessing := true
            now := s.now + stageCount * stageDelayMs } := by
        simp [step, simulateUnrevoke, hsel]
      rw [hstep]
      refine ⟨(s.now + stageCount * stageDelayMs) :: ts, ?_, ?_, ?_⟩
      · simp only [List.map_cons]
        rw [hmap]
        rfl
      · rw [List.pairwise_cons]
        refine ⟨?_, hpw⟩
        intro a ha
        have := hle a ha
        omega
      · intro t ht
        rcases List.mem_cons.mp ht with rfl | ht
        · exact Nat.le_refl _
        · have h1 := hle t ht
          show t ≤ s.now + stageCount * stageDelayMs
          omega
  | download i => exact ⟨ts, hmap, hpw, hle⟩
  | tick d =>
    refine ⟨ts, hmap, hpw, ?_⟩
    intro t ht
    have h1 := hle t ht
    have h2 : (step (Op.tick d) s).now = s.now + d := rfl
    omega

/-- idsTimeStamped holds along any run. -/
theorem idsTimeStamped_runOps (ops : List Op) (s : AppState)
    (h : idsTimeStamped s) : idsTimeStamped (runOps ops s) := by
  induction ops generalizing s with
  | nil => exact h
  | cons op rest ih => exact ih _ (idsTimeStamped_step op s h)

/-- Claim C1 (code bug evidence): a successful run — demoFile uploaded,
then simulateUnrevoke driven to completion — appends exactly one record
and clears the selected file, but the busy flag is true afterwards, not
false as the spec states: the source sets isProcessing to true on entry
and never calls setIsProcessing(false). -/
theorem c1_run_leaves_busy_true :
    (runOps [Op.upload (some demoFile), Op.unrevoke true]
        (initState 0)).certificates.length = 1
    ∧ (runOps [Op.upload (some demoFile), Op.unrevoke true]
        (initState 0)).selectedFile = none
    ∧ (runOps [Op.upload (some demoFile), Op.unrevoke true]
        (initState 0)).isProcessing = true := by
  decide

/-- Claim C2: selectFile accepts a file iff its name ends with the
literal, case-sensitive suffix .p12; acceptance replaces the selected
file (and changes nothing else), rejection leaves the whole state
unchanged. -/
theorem c2_selectFile_suffix_gate (f : JsFile) (s : AppState) :
    (uploadAccepts (some f) = true ↔ p12Suffix.isSuffixOf f.name = true)
    ∧ (uploadAccepts (some f) = true →
        handleFileUpload (some f) s
          = ({ s with selectedFile := some f }, uploadOkToast f))
    ∧ (uploadAccepts (some f) = false →
        handleFileUpload (some f) s = (s, invalidFormatToast)) := by
  refine ⟨Iff.rfl, ?_, ?_⟩
  · intro h
    have hb : p12Suffix.isSuffixOf f.name = true := h
    simp [handleFileUpload, hb]
  · intro h
    have hb : p12Suffix.isSuffixOf f.name = false := h
    simp [handleFileUpload, hb]

/-- Witness for C2 at a concrete accepted file. -/
theorem c2_selectFile_suffix_gate_witness :
    handleFileUpload (some demoFile) (initState 0)
      = ({ initState 0 with selectedFile := some demoFile },
          uploadOkToast demoFile) :=
  (c2_selectFile_suffix_gate demoFile (initState 0)).2.1 (by decide)

/-- Claim C3: start with no selected file fires the missing-file error
notification and returns the state exactly unchanged — record store,
selected file and busy flag included. -/
theorem c3_start_without_file_no_change (rand : Bool) (s : AppState)
    (h : s.selectedFile = none) :
    simulateUnrevoke rand s = (s, missingFileToast)
    ∧ missingFileToast.destructive = true := by
  constructor
  · simp [simulateUnrevoke, h]
  · rfl

/-- Witness for C3 at the freshly mounted state. -/
theorem c3_start_without_file_no_change_witness :
    simulateUnrevoke true (initState 0) = (initState 0, missingFileToast)
    ∧ missingFileToast.destructive = true :=
  c3_start_without_file_no_change true (initState 0) rfl

/-- Claim C4: download on a present handle produces an artifact whose
bytes are exactly the handle's bytes, and in particular the record a run
builds from the selected file exports exactly the originally uploaded
bytes (upload-then-export is the identity on contents). -/
theorem c4_download_round_trip (f : JsFile) (name : List Char)
    (rand : Bool) (s : AppState) (h : s.selectedFile = some f) :
    (∃ a, handleDownload (some f) name = Except.ok a ∧ a.bytes = f.bytes)
    ∧ ∃ r rest, (simulateUnrevoke rand s).1.certificates = r :: rest
        ∧ r.file = some f
        ∧ ∃ a, handleDownload r.file r.name = Except.ok a
            ∧ a.bytes = f.bytes := by
  constructor
  · exact ⟨_, rfl, rfl⟩
  · refine ⟨mkCert (s.now + stageCount * stageDelayMs) rand f,
      s.certificates, ?_, rfl, ⟨_, rfl, rfl⟩⟩
    simp [simulateUnrevoke, h]

/-- Witness for C4 at a concrete selected file. -/
theorem c4_download_round_trip_witness :
    (∃ a, handleDownload (some demoFile) demoStem = Except.ok a
        ∧ a.bytes = demoFile.bytes)
    ∧ ∃ r rest,
        (simulateUnrevoke true demoSelState).1.certificates = r :: rest
        ∧ r.file = some demoFile
        ∧ ∃ a, handleDownload r.file r.name = Except.ok a
            ∧ a.bytes = demoFile.bytes :=
  c4_download_round_trip demoFile demoStem true demoSelState rfl

/-- The record name the code actually produces for cexFile. -/
def cexWrongName : List Char := "ab.p12".data

/-- The file refuting claim C5: its name contains .p12 twice. -/
def cexFile : JsFile := { name := "a.p12b.p12".data, bytes := [9] }

/-- Claim C5 is false as stated: for the accepted file a.p12b.p12 the
run stores display name ab.p12 (replace removes the first occurrence of
.p12, not the suffix), which differs from the suffix-stripped name
a.p12b, and the exported file name ab.p12 differs from the original
file name. -/
theorem c5_counterexample :
    (runOps [Op.upload (some cexFile), Op.unrevoke true]
        (initState 0)).certificates.map CertificateInfo.name
      = [cexWrongName]
    ∧ cexWrongName ≠ cexFile.name.take (cexFile.name.length - p12Suffix.length)
    ∧ exportName cexWrongName ≠ cexFile.name := by
  decide

/-- Claim C5 (amended): when .p12 occurs in the source file name only
as the trailing suffix — the name is stem ++ .p12 and no occurrence of
.p12 starts inside stem — the record's display name is exactly the
suffix-stripped stem, and export re-appends .p12, reproducing the
original file name. -/
theorem c5_amended_display_name (stem : List Char) (f : JsFile)
    (rand : Bool) (s : AppState)
    (hsel : s.selectedFile = some f)
    (hname : f.name = stem ++ p12Suffix)
    (honce : ∀ i, i < stem.length →
      p12Suffix.isPrefixOf (f.name.drop i) = false) :
    ∃ r rest, (simulateUnrevoke rand s).1.certificates = r :: rest
      ∧ r.name = stem
      ∧ exportName r.name = f.name := by
  have hpat : p12Suffix ≠ [] := by decide
  rw [hname] at honce
  have hrm : removeFirst p12Suffix f.name = stem := by
    rw [hname]
    exact removeFirst_append_self p12Suffix stem hpat honce
  have hsfx : p12Suffix.isSuffixOf stem = false :=
    not_suffixOf_of_no_inner p12Suffix stem hpat honce
  refine ⟨mkCert (s.now + stageCount * stageDelayMs) rand f,
    s.certificates, ?_, ?_, ?_⟩
  · simp [simulateUnrevoke, hsel]
  · simpa [mkCert] using hrm
  · have hn : (mkCert (s.now + stageCount * stageDelayMs) rand f).name = stem := by
      simpa [mkCert] using hrm
    rw [hn]
    unfold exportName
    have hcond : ¬ (p12Suffix.isSuffixOf stem = true) := by
      rw [hsfx]
      exact Bool.false_ne_true
    rw [if_neg hcond, ← hname]

/-- Witness for the amended C5 at the file cert1.p12. -/
theorem c5_amended_display_name_witness :
    ∃ r rest,
      (simulateUnrevoke true demoSelState).1.certificates = r :: rest
      ∧ r.name = demoStem
      ∧ exportName r.name = demoFile.name :=
  c5_amended_display_name demoStem demoFile true demoSelState rfl
    (by decide) (by decide)

/-- Claim C6: every operation leaves the record store unchanged or
prepends exactly one record, so the store is append-only and
newest-first; a concrete double run yields the sequence [R2, R1]. -/
theorem c6_store_append_only :
    (∀ op s, (step op s).certificates = s.certificates
      ∨ ∃ r, (step op s).certificates = r :: s.certificates)
    ∧ ∃ r1 r2,
        (runOps [Op.upload (some demoFile), Op.unrevoke true,
            Op.upload (some demoFile2), Op.unrevoke false]
          (initState 0)).certificates = [r2, r1] := by
  constructor
  · intro op s
    cases op with
    | upload ev => exact Or.inl (step_upload_certs ev s)
    | unrevoke rand =>
      cases hsel : s.selectedFile with
      | none =>
        left
        simp [step, simulateUnrevoke, hsel]
      | some f =>
        right
        exact ⟨mkCert (s.now + stageCount * stageDelayMs) rand f,
          by simp [step, simulateUnrevoke, hsel]⟩
    | download i => exact Or.inl rfl
    | tick d => exact Or.inl rfl
  · exact ⟨mkCert 5000 true demoFile, mkCert 10000 false demoFile2,
      by decide⟩

/-- Claim C7: download on a record without a retained handle fails with
the destructive download-failed notification, and the download
operation never changes the component state, record store included. -/
theorem c7_download_missing_handle (name : List Char) (s : AppState)
    (i : Nat) :
    handleDownload none name = Except.error downloadFailedToast
    ∧ downloadFailedToast.destructive = true
    ∧ step (Op.download i) s = s :=
  ⟨rfl, rfl, rfl⟩

/-- Claim C8: along any run of the component the stored record
identifiers are pairwise distinct — each completed run stamps its
record with the advanced clock, which strictly exceeds every earlier
stamp, and decimal renderings of distinct timestamps differ. -/
theorem c8_ids_unique (ops : List Op) (t0 : Nat) :
    ((runOps ops (initState t0)).certificates.map
      CertificateInfo.id).Nodup := by
  have hbase : idsTimeStamped (initState t0) :=
    ⟨[], rfl, List.Pairwise.nil, by simp⟩
  obtain ⟨ts, hmap, hpw, -⟩ :=
    idsTimeStamped_runOps ops (initState t0) hbase
  rw [hmap]
  exact List.Nodup.map (fun a b hab => mkId_inj a b hab)
    (hpw.imp fun h => ne_of_gt h)

/-- Claim C9: every record the pipeline ever stores retains a file
handle, so download on a stored record always takes the success
branch. -/
theorem c9_pipeline_records_have_file (ops : List Op) (t0 : Nat)
    (r : CertificateInfo)
    (hr : r ∈ (runOps ops (initState t0)).certificates) :
    r.file.isSome = true
    ∧ ∃ a, handleDownload r.file r.name = Except.ok a := by
  have hall : allHaveFile (runOps ops (initState t0)) :=
    allHaveFile_runOps ops (initState t0) (by intro r hr; simp [initState] at hr)
  have hsome := hall r hr
  obtain ⟨f, hf⟩ := Option.isSome_iff_exists.mp hsome
  refine ⟨hsome, ?_⟩
  rw [hf]
  exact ⟨_, rfl⟩

/-- Witness for C9 at the record of a concrete completed run. -/
theorem c9_pipeline_records_have_file_witness :
    (mkCert 5000 true demoFile).file.isSome = true
    ∧ ∃ a, handleDownload (mkCert 5000 true demoFile).file
        (mkCert 5000 true demoFile).name = Except.ok a :=
  c9_pipeline_records_have_file
    [Op.upload (some demoFile), Op.unrevoke true] 0
    (mkCert 5000 true demoFile) (by decide)

/-- Claim C10: an empty file selection takes exactly the rejection path
of a wrong-suffix file: the same invalid-format error notification is
fired and the state, selected file included, is unchanged. -/
theorem c10_empty_selection_rejected (s : AppState) (f : JsFile)
    (h : p12Suffix.isSuffixOf f.name = false) :
    handleFileUpload none s = (s, invalidFormatToast)
    ∧ handleFileUpload none s = handleFileUpload (some f) s
    ∧ invalidFormatToast.destructive = true := by
  refine ⟨rfl, ?_, rfl⟩
  simp [handleFileUpload, h]

/-- Witness for C10 against a concrete wrong-suffix file. -/
theorem c10_empty_selection_rejected_witness :
    handleFileUpload none (initState 0) = (initState 0, invalidFormatToast)
    ∧ handleFileUpload none (initState 0)
        = handleFileUpload (some badFile) (initState 0)
    ∧ invalidFormatToast.destructive = true :=
  c10_empty_selection_rejected (initState 0) badFile (by decide)
